import Mathlib

/-!
Verification of the client-side link-graph script (`assets/graph-script.js`)
of the quarto_website repository.

The script is plain browser JavaScript.  We shallowly embed the pure data
manipulation it performs: node-set construction from the search index, the
manual/inferred edge merge, the post-simulation layout pass (pinning the
current node to the viewport centre and clamping the others), the category
filter state machine, the text-search and focus-mode render filters, the
keyboard focus index update, the recent-pages log, and the backlinks /
related-content derivation.  Strings stay strings; JS numbers used as
coordinates become `ℚ` (only comparisons, `min`/`max` and assignments are
performed on them, which are exact in any ordered field); JS indices that
may be negative become `Int`.  JS `Map` becomes an association list with
`Map.set` semantics (update in place, insertion order kept); JS `Set`
becomes a duplicate-free list with insertion order.
-/

namespace GraphScript

/-- A graph node as built by the search-index handler:
`{ id, label, path, cat }` (all strings in the source). -/
structure GNode where
  id : String
  label : String
  path : String
  cat : String
deriving DecidableEq, Repr

/-- A directed edge `{ source, target }` referencing nodes by id. -/
structure Edge where
  source : String
  target : String
deriving DecidableEq, Repr

/-- One record of the fetched `search.json` array: the handler reads only
`item.href` and `item.title`.  A missing/falsy title is modelled as `""`. -/
structure SearchItem where
  href : String
  title : String
deriving DecidableEq, Repr

/-! ### String helpers mirroring the JS string operations used -/

/-- JS `s.split(c)` for a single-character separator. -/
def splitChar (c : Char) : List Char → List (List Char)
  | [] => [[]]
  | x :: xs =>
    let r := splitChar c xs
    if x == c then [] :: r
    else
      match r with
      | [] => [[x]]
      | y :: ys => (x :: y) :: ys

/-- JS `parts.join("/")` on character lists. -/
def joinSlash : List (List Char) → List Char
  | [] => []
  | [x] => x
  | x :: y :: ys => x ++ '/' :: joinSlash (y :: ys)

/-- JS `s.startsWith(pre)`. -/
def strStartsWith (s pre : String) : Bool :=
  pre.toList.isPrefixOf s.toList

/-- JS `s.endsWith(suf)`. -/
def strEndsWith (s suf : String) : Bool :=
  suf.toList.reverse.isPrefixOf s.toList.reverse

/-- JS `s.includes(sub)`: substring containment. -/
def substrAt (pat : List Char) : List Char → Bool
  | [] => pat.isEmpty
  | c :: cs => pat.isPrefixOf (c :: cs) || substrAt pat cs

/-- JS `s.includes(sub)` on strings. -/
def strIncludes (s sub : String) : Bool :=
  substrAt sub.toList s.toList

/-- JS `s.split('#')[0]`. -/
def takeBeforeHash (s : String) : String :=
  String.mk (s.toList.takeWhile (fun c => c != '#'))

/-! ### JS `Set` of strings as a duplicate-free list (insertion order) -/

/-- JS `set.has(x)`. -/
def hasS (s : List String) (x : String) : Bool :=
  s.any (fun y => y == x)

/-- JS `set.add(x)` (a `Set` never stores duplicates). -/
def addS (s : List String) (x : String) : List String :=
  if hasS s x then s else s ++ [x]

/-- JS `set.delete(x)`. -/
def delS (s : List String) (x : String) : List String :=
  s.filter (fun y => y != x)

/-! ### JS `Map` keyed by strings, as an association list.
`Map.set` replaces the value in place when the key exists and appends
otherwise; iteration order is insertion order. -/

/-- JS `map.has(k)`. -/
def mapHas (m : List (String × GNode)) (k : String) : Bool :=
  m.any (fun kv => kv.1 == k)

/-- JS `map.set(k, v)`. -/
def mapSet (m : List (String × GNode)) (k : String) (v : GNode) :
    List (String × GNode) :=
  if mapHas m k then m.map (fun kv => if kv.1 == k then (k, v) else kv)
  else m ++ [(k, v)]

/-! ### Recent-pages log (`getRecentPages` / `addRecentPage`) -/

/-- One persisted entry `{ path, timestamp }`. -/
structure RecentEntry where
  path : String
  timestamp : Nat
deriving DecidableEq, Repr

/-- The pure update performed by `addRecentPage`:
filter out the path, unshift the new entry, `slice(0, 10)`.
`now` stands for `Date.now()`. -/
def addRecentPage (path : String) (now : Nat) (recent : List RecentEntry) :
    List RecentEntry :=
  ({ path := path, timestamp := now } ::
    recent.filter (fun p => p.path != path)).take 10

/-- State of the `graph-recent-pages` localStorage slot.  The script never
inspects the JSON text itself, only `JSON.parse`'s outcome, so the stored
text is modelled by its parse result: either a valid entry list or an
unparsable blob. -/
inductive StoredVal where
  | corrupt : StoredVal
  | valid : List RecentEntry → StoredVal
deriving DecidableEq, Repr

/-- The storage environment: `none` when localStorage access throws
(storage unavailable); `some none` when the key is absent (`getItem`
returns `null`); `some (some v)` when a value is stored. -/
abbrev Storage := Option (Option StoredVal)

/-- Source `getRecentPages`: `try { const recent = getItem(..); return recent ?
JSON.parse(recent) : [] } catch { return [] }`. -/
def getRecentPages : Storage → List RecentEntry
  | none => []
  | some none => []
  | some (some .corrupt) => []
  | some (some (.valid l)) => l

/-- The storage effect of `addRecentPage`: on an unavailable storage the
`setItem` throws and the `catch {}` leaves the state unchanged; otherwise
the computed list is serialized and stored. -/
def addRecentPageStore (path : String) (now : Nat) : Storage → Storage
  | none => none
  | some v =>
    some (some (.valid (addRecentPage path now (getRecentPages (some v)))))

/-! ### Keyboard focus index (modal keydown handler) -/

/-- The focus-index update on an arrow key (list known non-empty at the
call site): `forward` covers ArrowDown/ArrowRight
(`min(idx + 1, len - 1)`), the other branch ArrowUp/ArrowLeft
(`max(idx - 1, 0)`). -/
def handleArrowKey (forward : Bool) (idx : Int) (len : Nat) : Int :=
  if forward then min (idx + 1) ((len : Int) - 1) else max (idx - 1) 0

/-! ### Index Loader: node construction from `search.json` -/

/-- The six hard-coded core navigation pages. -/
def coreNodes : List GNode :=
  [ { id := "home", label := "Home", path := "/", cat := "nav" },
    { id := "about", label := "About", path := "/about.html", cat := "nav" },
    { id := "notes", label := "Notes", path := "/notes/", cat := "nav" },
    { id := "work", label := "Work", path := "/work/", cat := "nav" },
    { id := "reading", label := "Reading", path := "/reading/", cat := "nav" },
    { id := "contact", label := "Contact", path := "/contact_cv.html", cat := "nav" } ]

/-- Category derivation: `'nav'` default, overridden by the `/notes/`,
`/work/`, `/reading/` path checks. -/
def catOfPath (p : String) : String :=
  if strStartsWith p "/notes/" then "notes"
  else if strStartsWith p "/work/" then "work"
  else if strStartsWith p "/reading/" then "reading"
  else "nav"

/-- JS `s.replace(/[\/\.]/g, '-')`. -/
def mapSlashDot (l : List Char) : List Char :=
  l.map (fun c => if c == '/' || c == '.' then '-' else c)

/-- JS `s.replace(/^-|-$/g, '')`: one leading and one trailing dash. -/
def stripEdgeDashes (l : List Char) : List Char :=
  let l1 := match l with
    | '-' :: rest => rest
    | other => other
  match l1.reverse with
  | '-' :: rest => rest.reverse
  | _ => l1

/-- JS `s.replace(/html$/g, '')`. -/
def stripHtmlTail (l : List Char) : List Char :=
  let r := l.reverse
  if ['l', 'm', 't', 'h'].isPrefixOf r then (r.drop 4).reverse else l

/-- The id derivation
`path.replace(/[\/\.]/g,'-').replace(/^-|-$/g,'').replace(/html$/g,'')`. -/
def sanitizeId (p : String) : String :=
  String.mk (stripHtmlTail (stripEdgeDashes (mapSlashDot p.toList)))

/-- JS `item.title || path.split('/').pop()` (falsy title = empty string). -/
def labelOf (item : SearchItem) (path : String) : String :=
  if item.title != "" then item.title
  else String.mk ((splitChar '/' path.toList).getLastD [])

/-- The node built for a search-index entry that is not yet in the map. -/
def nodeOfItem (item : SearchItem) (path : String) : GNode :=
  { id := sanitizeId path
    label := labelOf item path
    path := path
    cat := catOfPath path }

/-- The `nodeMap` construction of the `search.json` then-handler: core
nodes first, then each index entry whose normalized path is new and does
not contain `index.html`; the node list is the map's values in insertion
order. -/
def buildNodes (searchData : List SearchItem) : List GNode :=
  let m0 := coreNodes.foldl (fun m n => mapSet m n.path n) []
  let m := searchData.foldl
    (fun m item =>
      let path := "/" ++ takeBeforeHash item.href
      if !(mapHas m path) && !(strIncludes path "index.html") then
        mapSet m path (nodeOfItem item path)
      else m)
    m0
  m.map (fun kv => kv.2)

/-- The hard-coded minimal node set assigned in the fetch `catch` handler. -/
def fallbackNodes : List GNode :=
  [ { id := "home", label := "Home", path := "/", cat := "nav" },
    { id := "about", label := "About", path := "/about.html", cat := "nav" },
    { id := "notes", label := "Notes", path := "/notes/", cat := "nav" },
    { id := "work", label := "Work", path := "/work/", cat := "nav" },
    { id := "reading", label := "Reading", path := "/reading/", cat := "nav" },
    { id := "contact", label := "Contact", path := "/contact_cv.html", cat := "nav" } ]

/-- The overall loader outcome: `some searchData` when a fetch (primary or
fallback path) succeeded and parsed, `none` when both failed and the
`catch` handler runs. -/
def loadNodes : Option (List SearchItem) → List GNode
  | some sd => buildNodes sd
  | none => fallbackNodes

/-! ### Graph Model Builder: the four inference rules and the merge -/

/-- JS `graphData.nodes.filter(n => n.cat === 'notes')`. -/
def notesOf (nodes : List GNode) : List GNode :=
  nodes.filter (fun n => n.cat == "notes")

/-- JS `graphData.nodes.filter(n => n.cat === 'work')`. -/
def worksOf (nodes : List GNode) : List GNode :=
  nodes.filter (fun n => n.cat == "work")

/-- JS `nodes.find(n => n.path === '/notes/' || n.path === '/notes/index.html')`. -/
def notesIndexOf (nodes : List GNode) : Option GNode :=
  nodes.find? (fun n => n.path == "/notes/" || n.path == "/notes/index.html")

/-- JS `nodes.find(n => n.path === '/work/' || n.path === '/work/index.html')`. -/
def workIndexOf (nodes : List GNode) : Option GNode :=
  nodes.find? (fun n => n.path == "/work/" || n.path == "/work/index.html")

/-- JS `links.find(l => l.source === s && l.target === t)` as a Boolean. -/
def containsPair (l : List Edge) (e : Edge) : Bool :=
  l.any (fun x => x.source == e.source && x.target == e.target)

/-- Push an edge unless an edge with the identical ordered
(source, target) pair is already present. -/
def dedupPush (acc : List Edge) (e : Edge) : List Edge :=
  if containsPair acc e then acc else acc ++ [e]

/-- JS `note.path.split('/').slice(0, -1).join('/')`: the parent directory. -/
def noteDir (p : String) : String :=
  String.mk (joinSlash ((splitChar '/' p.toList).dropLast))

/-- Rule 2's guard: distinct ids, equal parent directories, directory not
the `/notes` root and longer than 6 characters. -/
def sibCond (n1 n2 : GNode) : Bool :=
  n1.id != n2.id &&
  noteDir n1.path == noteDir n2.path &&
  noteDir n1.path != "/notes" &&
  decide (6 < (noteDir n1.path).length)

/-- Case-insensitive match of a literal pattern followed by one or more
digits (`/part-\d+/i`, `/series-\d+/i`); returns the rest after the match. -/
def matchCIDigits (pat : List Char) (l : List Char) : Option (List Char) :=
  match pat, l with
  | [], rest =>
    let d := rest.takeWhile Char.isDigit
    if d.isEmpty then none else some (rest.drop d.length)
  | _ :: _, [] => none
  | p :: ps, c :: cs =>
    if c.toLower == p.toLower then matchCIDigits ps cs else none

/-- JS non-global `s.replace(/pat-\d+/i, '')`: remove the leftmost match. -/
def removeFirstPat (pat : List Char) : List Char → List Char
  | [] => []
  | c :: cs =>
    match matchCIDigits pat (c :: cs) with
    | some rest => rest
    | none => c :: removeFirstPat pat cs

/-- JS `s.replace` with the anchored regex "dash digits end", non-global:
drop a trailing `-digits` suffix when present. -/
def stripNumSuffix (l : List Char) : List Char :=
  let r := l.reverse
  let d := r.takeWhile Char.isDigit
  if d.isEmpty then l
  else
    match r.drop d.length with
    | '-' :: rest => rest.reverse
    | _ => l

/-- Rule 3's base-name extraction: strip a trailing `-digits` suffix, then
remove the first case-insensitive `part-digits` and `series-digits`
occurrences, in that order. -/
def seriesName (p : String) : String :=
  String.mk (removeFirstPat "series-".toList
    (removeFirstPat "part-".toList (stripNumSuffix p.toList)))

/-- Rule 3's guard: distinct ids, equal base names, base name longer than
10 characters. -/
def seriesCond (n1 n2 : GNode) : Bool :=
  n1.id != n2.id &&
  seriesName n1.path == seriesName n2.path &&
  decide (10 < (seriesName n1.path).length)

/-- Rule 1: every notes node gets an edge to the notes index node. -/
def addRule1 (nodes : List GNode) : List Edge :=
  match notesIndexOf nodes with
  | some ix =>
    (notesOf nodes).foldl
      (fun a note =>
        if note.id != ix.id then a ++ [{ source := note.id, target := ix.id }]
        else a)
      []
  | none => []

/-- Rule 2: same-subdirectory notes siblings (both iteration orders). -/
def addRule2 (notesN : List GNode) (acc : List Edge) : List Edge :=
  notesN.foldl
    (fun a n1 =>
      notesN.foldl
        (fun b n2 =>
          if sibCond n1 n2 then dedupPush b { source := n1.id, target := n2.id }
          else b)
        a)
    acc

/-- Rule 3: same-series notes (both iteration orders). -/
def addRule3 (notesN : List GNode) (acc : List Edge) : List Edge :=
  notesN.foldl
    (fun a n1 =>
      notesN.foldl
        (fun b n2 =>
          if seriesCond n1 n2 then dedupPush b { source := n1.id, target := n2.id }
          else b)
        a)
    acc

/-- Rule 4: every work node gets an edge to the work index node. -/
def addRule4 (nodes : List GNode) (acc : List Edge) : List Edge :=
  match workIndexOf nodes with
  | some ix =>
    (worksOf nodes).foldl
      (fun a w =>
        if w.id != ix.id then a ++ [{ source := w.id, target := ix.id }]
        else a)
      acc
  | none => acc

/-- The `autoLinks` array after the four structural rules. -/
def autoLinks (nodes : List GNode) : List Edge :=
  addRule4 nodes (addRule3 (notesOf nodes) (addRule2 (notesOf nodes) (addRule1 nodes)))

/-- The merge: start from the manual links and append each auto link whose
ordered (source, target) pair is not already present. -/
def buildLinks (nodes : List GNode) (manualLinks : List Edge) : List Edge :=
  (autoLinks nodes).foldl dedupPush manualLinks

/-! ### Force Layout Engine: the deterministic post-simulation pass.
The physics ticks themselves are performed by the external d3 library; the
script then unconditionally re-assigns the current node to the viewport
centre and clamps every other node, so the layout guarantees hold for
arbitrary positions left behind by the simulation.  Coordinates are `ℚ`
(only assignment, `min` and `max` are applied). -/

/-- A node record during layout: id plus mutable position. -/
structure LNode where
  id : String
  x : ℚ
  y : ℚ
deriving DecidableEq, Repr

/-- The "ensure current node stays at center" assignment: the first node
whose id matches `currentId` (the one `nodes.find` returned) gets the
centre coordinates. -/
def setCurrentPos (cid : String) (cx cy : ℚ) : List LNode → List LNode
  | [] => []
  | n :: rest =>
    if n.id == cid then { n with x := cx, y := cy } :: rest
    else n :: setCurrentPos cid cx cy rest

/-- JS `Math.max(lo, Math.min(hi, v))`. -/
def clampCoord (lo hi v : ℚ) : ℚ := max lo (min hi v)

/-- The clamping loop: every node except those with the current id has
both coordinates clamped into `[margin, width - margin]` /
`[margin, height - margin]`. -/
def clampOthers (cid : String) (margin w h : ℚ) (ns : List LNode) :
    List LNode :=
  ns.map (fun n =>
    if n.id == cid then n
    else { n with
            x := clampCoord margin (w - margin) n.x
            y := clampCoord margin (h - margin) n.y })

/-- The post-simulation pass: recentre the current node, then clamp the
others. -/
def layoutPost (cid : String) (margin w h : ℚ) (ns : List LNode) :
    List LNode :=
  clampOthers cid margin w h (setCurrentPos cid (w / 2) (h / 2) ns)

/-- Source `renderMiniGraph`'s post pass (margin 15, run after 150 ticks). -/
def renderMiniGraphPost (cid : String) (w h : ℚ) (ns : List LNode) :
    List LNode :=
  layoutPost cid 15 w h ns

/-- Source `initGraph`'s post pass (margin 50, run after 200 ticks). -/
def initGraphPost (cid : String) (w h : ℚ) (ns : List LNode) : List LNode :=
  layoutPost cid 50 w h ns

/-! ### Interactive Viewer: category filter state machine and render
filters -/

/-- The category buttons present in the modal markup. -/
def filterButtons : List String := ["all", "notes", "work", "reading", "nav"]

/-- The four individual categories checked by the re-add-`all` test. -/
def allCats : List String := ["notes", "work", "reading", "nav"]

/-- One click on a filter button (`graph-filter-btn` handler).  In the
"turn everything back on" branch the source calls
`activeCategories.add('all', 'notes', 'models', 'projects', 'nav')`;
`Set.prototype.add` takes a single argument, so only `'all'` is stored and
both branches leave the set `{'all'}`. -/
def clickFilter (s : List String) (cat : String) : List String :=
  if cat == "all" then
    if hasS s "all" then addS [] "all"
    else addS [] "all"
  else
    if hasS s cat then delS (delS s cat) "all"
    else
      let s1 := addS s cat
      if allCats.all (fun c => hasS s1 c) then addS s1 "all" else s1

/-- The initial filter state `new Set(['all','notes','work','reading','nav'])`. -/
def initialCategories : List String := ["all", "notes", "work", "reading", "nav"]

/-- Filter states reachable from the initial state by clicking the five
existing filter buttons. -/
inductive FilterReachable : List String → Prop
  | init : FilterReachable initialCategories
  | step (s : List String) (c : String) :
      FilterReachable s → c ∈ filterButtons → FilterReachable (clickFilter s c)

/-- The set of categories the current selection admits: all four when the
`'all'` shortcut is present, otherwise the selection itself. -/
def activeCatSet (s : List String) : List String :=
  if hasS s "all" then ["nav", "notes", "work", "reading"] else s

/-- The case-insensitive substring search over label, path and id. -/
def matchesQuery (q : String) (n : GNode) : Bool :=
  let ql := q.toLower
  strIncludes n.label.toLower ql ||
  strIncludes n.path.toLower ql ||
  strIncludes n.id.toLower ql

/-- The ids adjacent to the current node (`connectedNodes` set). -/
def connectedIds (links : List Edge) (cid : String) : List String :=
  links.foldl
    (fun s l =>
      if l.source == cid || l.target == cid then addS (addS s l.source) l.target
      else s)
    []

/-- The node list `initGraph` renders: category filter (skipped when
`'all'` is active), then search filter (skipped on the empty query), then
focus mode (only when a current node was identified).  The `degree`
decoration added in the source does not alter membership and is omitted. -/
def visibleNodes (s : List String) (q : String) (fm : Bool)
    (cid : Option String) (nodes : List GNode) (links : List Edge) :
    List GNode :=
  let ns1 := if hasS s "all" then nodes
             else nodes.filter (fun n => hasS s n.cat)
  let ns2 := if q != "" then ns1.filter (matchesQuery q) else ns1
  match cid with
  | some c => if fm then ns2.filter (fun n => hasS (connectedIds links c) n.id) else ns2
  | none => ns2

/-- The link list `initGraph` renders: only links whose source and target
ids are both found among the filtered nodes. -/
def visibleLinks (s : List String) (q : String) (fm : Bool)
    (cid : Option String) (nodes : List GNode) (links : List Edge) :
    List Edge :=
  let vn := visibleNodes s q fm cid nodes links
  links.filter (fun l =>
    vn.any (fun n => n.id == l.source) && vn.any (fun n => n.id == l.target))

/-! ### Page Augmentation: current page resolution, backlinks and related
content -/

/-- Source `getCurrentPageId`: exact match, then the ends-with heuristics, then
the homepage fallback. -/
def getCurrentPageId (path : String) (nodes : List GNode) : Option String :=
  let exact := nodes.find? (fun n =>
    path == n.path || path == n.path ++ "index.html")
  match exact with
  | some n => some n.id
  | none =>
    let near := nodes.find? (fun n =>
      (strEndsWith path "/" && n.path == path) ||
      (strEndsWith n.path "/" && strStartsWith path n.path) ||
      (strEndsWith path n.path || strEndsWith n.path path))
    match near with
    | some n => some n.id
    | none =>
      if path == "/" || path == "/index.html" || strEndsWith path "/index.html" then
        (nodes.find? (fun n => n.path == "/" || n.id == "home")).map (fun n => n.id)
      else none

/-- JS `nodes.find(n => n.id === i)`. -/
def findNodeById (nodes : List GNode) (i : String) : Option GNode :=
  nodes.find? (fun n => n.id == i)

/-- The raw backlinks collection: sources of links targeting the current
id whose page is not the current page.  After the index load the stored
links keep string endpoints (renders operate on copies), so only the
string branch of the source's `typeof` dispatch is live. -/
def backlinksRaw (nodes : List GNode) (links : List Edge) (cid : String)
    (cpath : String) : List GNode :=
  links.foldl
    (fun acc l =>
      if l.target == cid then
        match findNodeById nodes l.source with
        | some sn => if sn.path != cpath then acc ++ [sn] else acc
        | none => acc
      else acc)
    []

/-- The raw related-content collection: targets of links leaving the
current id whose page is not the current page. -/
def relatedRaw (nodes : List GNode) (links : List Edge) (cid : String)
    (cpath : String) : List GNode :=
  links.foldl
    (fun acc l =>
      if l.source == cid then
        match findNodeById nodes l.target with
        | some tn => if tn.path != cpath then acc ++ [tn] else acc
        | none => acc
      else acc)
    []

/-- JS `Array.from(new Map(list.map(b => [b.path, b])).values())`:
deduplication by path with Map insertion-order semantics. -/
def dedupByPath (l : List GNode) : List GNode :=
  (l.foldl (fun m b => mapSet m b.path b) []).map (fun kv => kv.2)

/-- The injected backlinks list (`uniqueBacklinks`). -/
def backlinksOf (nodes : List GNode) (links : List Edge) (cid : String)
    (cpath : String) : List GNode :=
  dedupByPath (backlinksRaw nodes links cid cpath)

/-- The injected related-content list (`uniqueRelated`). -/
def relatedOf (nodes : List GNode) (links : List Edge) (cid : String)
    (cpath : String) : List GNode :=
  dedupByPath (relatedRaw nodes links cid cpath)

/-- Invariant of the `nodeMap` under construction: keys are pairwise
distinct, each stored node's path is its key, and its category lies in the
closed category set. -/
def NodeMapInv (m : List (String × GNode)) : Prop :=
  List.Pairwise (fun a b => a.1 ≠ b.1) m ∧
  ∀ kv ∈ m, kv.2.path = kv.1 ∧ kv.2.cat ∈ ["nav", "notes", "work", "reading"]

/-! ## Generic fold lemmas -/

theorem foldl_preserve {α β : Type} (f : β → α → β) (P : β → Prop)
    (hpres : ∀ b a, P b → P (f b a)) :
    ∀ (l : List α) (b : β), P b → P (l.foldl f b) := by
  intro l
  induction l with
  | nil => intro b hb; exact hb
  | cons a l ih => intro b hb; exact ih (f b a) (hpres b a hb)

theorem foldl_ensure {α β : Type} (f : β → α → β) (P : β → Prop) (x : α)
    (hstep : ∀ b, P (f b x)) (hpres : ∀ b a, P b → P (f b a)) :
    ∀ (l : List α) (b : β), x ∈ l → P (l.foldl f b) := by
  intro l
  induction l with
  | nil => intro b hx; cases hx
  | cons a l ih =>
    intro b hx
    rcases List.mem_cons.mp hx with h | h
    · subst h
      exact foldl_preserve f P hpres l (f b x) (hstep b)
    · exact ih (f b a) h

theorem foldl_mem_step {α β : Type} (f : List β → α → List β)
    (Q : α → β → Prop)
    (hf : ∀ acc a e, e ∈ f acc a → e ∈ acc ∨ Q a e) :
    ∀ (l : List α) (acc : List β) (e : β),
      e ∈ l.foldl f acc → e ∈ acc ∨ ∃ a, a ∈ l ∧ Q a e := by
  intro l
  induction l with
  | nil => intro acc e he; exact Or.inl he
  | cons a l ih =>
    intro acc e he
    rcases ih (f acc a) e he with h | ⟨a', ha', hq⟩
    · rcases hf acc a e h with h' | h'
      · exact Or.inl h'
      · exact Or.inr ⟨a, List.mem_cons_self a l, h'⟩
    · exact Or.inr ⟨a', List.mem_cons_of_mem a ha', hq⟩

/-! ## Edge-merge lemmas -/

theorem containsPair_append_left {a b : List Edge} {e : Edge}
    (h : containsPair a e = true) : containsPair (a ++ b) e = true := by
  unfold containsPair at *
  rw [List.any_append, h]
  rfl

theorem containsPair_dedupPush {a : List Edge} {x e : Edge}
    (h : containsPair a e = true) : containsPair (dedupPush a x) e = true := by
  unfold dedupPush
  split
  · exact h
  · exact containsPair_append_left h

theorem containsPair_dedupPush_self (a : List Edge) (x : Edge) :
    containsPair (dedupPush a x) x = true := by
  unfold dedupPush
  split
  · assumption
  · unfold containsPair
    rw [List.any_append]
    simp

theorem mem_dedupPush {a : List Edge} {x e : Edge}
    (h : e ∈ a) : e ∈ dedupPush a x := by
  unfold dedupPush
  split
  · exact h
  · exact List.mem_append_left _ h

theorem mem_dedupPush_cases {a : List Edge} {x e : Edge}
    (h : e ∈ dedupPush a x) : e ∈ a ∨ e = x := by
  unfold dedupPush at h
  split at h
  · exact Or.inl h
  · rcases List.mem_append.mp h with h' | h'
    · exact Or.inl h'
    · exact Or.inr (List.mem_singleton.mp h')

theorem containsPair_foldl_dedupPush {a : List Edge} {e : Edge}
    (l : List Edge) (h : containsPair a e = true) :
    containsPair (l.foldl dedupPush a) e = true :=
  foldl_preserve dedupPush (fun b => containsPair b e = true)
    (fun _ _ hb => containsPair_dedupPush hb) l a h

theorem mem_foldl_dedupPush {a : List Edge} {e : Edge} (l : List Edge)
    (h : e ∈ a) : e ∈ l.foldl dedupPush a :=
  foldl_preserve dedupPush (fun b => e ∈ b)
    (fun _ _ hb => mem_dedupPush hb) l a h

theorem foldl_dedupPush_contains_all (l : List Edge) (a : List Edge) :
    ∀ e ∈ l, containsPair (l.foldl dedupPush a) e = true := by
  intro e he
  exact foldl_ensure dedupPush (fun b => containsPair b e = true) e
    (fun b => containsPair_dedupPush_self b e)
    (fun _ _ hb => containsPair_dedupPush hb) l a he

theorem foldl_dedupPush_noop {l a : List Edge}
    (h : ∀ e ∈ l, containsPair a e = true) : l.foldl dedupPush a = a := by
  induction l with
  | nil => rfl
  | cons x l ih =>
    have hx : dedupPush a x = a := by
      unfold dedupPush
      rw [h x (List.mem_cons_self x l)]
      rfl
    simp only [List.foldl_cons, hx]
    exact ih (fun e he => h e (List.mem_cons_of_mem x he))

/-! ## Inference-rule lemmas -/

theorem addRule2_mono {acc : List Edge} {e : Edge} (notesN : List GNode)
    (h : containsPair acc e = true) :
    containsPair (addRule2 notesN acc) e = true := by
  unfold addRule2
  refine foldl_preserve _ (fun b => containsPair b e = true) ?_ notesN acc h
  intro b a hb
  refine foldl_preserve _ (fun b => containsPair b e = true) ?_ notesN b hb
  intro b' a' hb'
  split
  · exact containsPair_dedupPush hb'
  · exact hb'

theorem addRule3_mono {acc : List Edge} {e : Edge} (notesN : List GNode)
    (h : containsPair acc e = true) :
    containsPair (addRule3 notesN acc) e = true := by
  unfold addRule3
  refine foldl_preserve _ (fun b => containsPair b e = true) ?_ notesN acc h
  intro b a hb
  refine foldl_preserve _ (fun b => containsPair b e = true) ?_ notesN b hb
  intro b' a' hb'
  split
  · exact containsPair_dedupPush hb'
  · exact hb'

theorem addRule4_mono {acc : List Edge} {e : Edge} (nodes : List GNode)
    (h : containsPair acc e = true) :
    containsPair (addRule4 nodes acc) e = true := by
  unfold addRule4
  cases workIndexOf nodes with
  | none => exact h
  | some ix =>
    refine foldl_preserve _ (fun b => containsPair b e = true) ?_ _ acc h
    intro b a hb
    split
    · exact containsPair_append_left hb
    · exact hb

theorem addRule2_contains (notesN : List GNode) (acc : List Edge)
    {n1 n2 : GNode} (h1 : n1 ∈ notesN) (h2 : n2 ∈ notesN)
    (hc : sibCond n1 n2 = true) :
    containsPair (addRule2 notesN acc)
      { source := n1.id, target := n2.id } = true := by
  unfold addRule2
  refine foldl_ensure _
    (fun b => containsPair b { source := n1.id, target := n2.id } = true)
    n1 ?_ ?_ notesN acc h1
  · intro b
    refine foldl_ensure _
      (fun b => containsPair b { source := n1.id, target := n2.id } = true)
      n2 ?_ ?_ notesN b h2
    · intro b'
      simp only [hc, if_true]
      exact containsPair_dedupPush_self b' _
    · intro b' a' hb'
      split
      · exact containsPair_dedupPush hb'
      · exact hb'
  · intro b a hb
    refine foldl_preserve _
      (fun b => containsPair b { source := n1.id, target := n2.id } = true)
      ?_ notesN b hb
    intro b' a' hb'
    split
    · exact containsPair_dedupPush hb'
    · exact hb'

theorem addRule2_sound (notesN : List GNode) (acc : List Edge) :
    ∀ e ∈ addRule2 notesN acc,
      e ∈ acc ∨ ∃ n1, n1 ∈ notesN ∧ ∃ n2, n2 ∈ notesN ∧
        sibCond n1 n2 = true ∧ e = { source := n1.id, target := n2.id } := by
  intro e he
  unfold addRule2 at he
  have h := foldl_mem_step _
    (fun n1 e => ∃ n2, n2 ∈ notesN ∧ sibCond n1 n2 = true ∧
      e = { source := n1.id, target := n2.id }) ?_ notesN acc e he
  · rcases h with h | ⟨n1, hn1, n2, hn2, hc, heq⟩
    · exact Or.inl h
    · exact Or.inr ⟨n1, hn1, n2, hn2, hc, heq⟩
  · intro acc' a e' he'
    have h' := foldl_mem_step _
      (fun n2 e' => sibCond a n2 = true ∧ e' = { source := a.id, target := n2.id })
      ?_ notesN acc' e' he'
    · rcases h' with h' | ⟨n2, hn2, hc, heq⟩
      · exact Or.inl h'
      · exact Or.inr ⟨n2, hn2, hc, heq⟩
    · intro acc'' a' e'' he''
      by_cases hcond : sibCond a a' = true
      · simp only [hcond, if_true] at he''
        rcases mem_dedupPush_cases he'' with h'' | h''
        · exact Or.inl h''
        · exact Or.inr ⟨hcond, h''⟩
      · simp only [hcond, if_false] at he''
        exact Or.inl he''

theorem sibCond_symm {n1 n2 : GNode} (h : sibCond n1 n2 = true) :
    sibCond n2 n1 = true := by
  simp only [sibCond, Bool.and_eq_true, bne_iff_ne, ne_eq, beq_iff_eq,
    decide_eq_true_eq] at h ⊢
  obtain ⟨⟨⟨hid, hdir⟩, hroot⟩, hlen⟩ := h
  exact ⟨⟨⟨fun hh => hid hh.symm, hdir.symm⟩, hdir ▸ hroot⟩, hdir ▸ hlen⟩

theorem sibCond_not_root {n1 n2 : GNode} (h : sibCond n1 n2 = true) :
    noteDir n1.path ≠ "/notes" := by
  simp only [sibCond, Bool.and_eq_true, bne_iff_ne, ne_eq, beq_iff_eq,
    decide_eq_true_eq] at h
  exact h.1.2

/-! ## Claim theorems -/

/-- C2: for any node list and manual edge list, running the edge merge
(manual edges plus the four structural inference rules) a second time on
its own output yields exactly the same edge list, and every manual edge is
contained in the merged edge set. -/
theorem buildLinks_idempotent_and_manual_subset :
    ∀ (nodes : List GNode) (manual : List Edge),
      buildLinks nodes (buildLinks nodes manual) = buildLinks nodes manual ∧
      ∀ e ∈ manual, e ∈ buildLinks nodes manual := by
  intro nodes manual
  constructor
  · unfold buildLinks
    exact foldl_dedupPush_noop (foldl_dedupPush_contains_all (autoLinks nodes) manual)
  · intro e he
    exact mem_foldl_dedupPush (autoLinks nodes) he

/-- Witness for C2: the theorem applied at a concrete node list and manual
edge list, with the membership hypothesis discharged at the manual edge. -/
theorem buildLinks_idempotent_and_manual_subset_witness :
    ({ source := "x", target := "y" } : Edge) ∈
        [({ source := "x", target := "y" } : Edge)] ∧
    buildLinks
        [ { id := "na", label := "A", path := "/notes/climate/a.html", cat := "notes" },
          { id := "nb", label := "B", path := "/notes/climate/b.html", cat := "notes" } ]
        (buildLinks
          [ { id := "na", label := "A", path := "/notes/climate/a.html", cat := "notes" },
            { id := "nb", label := "B", path := "/notes/climate/b.html", cat := "notes" } ]
          [{ source := "x", target := "y" }]) =
      buildLinks
        [ { id := "na", label := "A", path := "/notes/climate/a.html", cat := "notes" },
          { id := "nb", label := "B", path := "/notes/climate/b.html", cat := "notes" } ]
        [{ source := "x", target := "y" }] ∧
    ({ source := "x", target := "y" } : Edge) ∈
      buildLinks
        [ { id := "na", label := "A", path := "/notes/climate/a.html", cat := "notes" },
          { id := "nb", label := "B", path := "/notes/climate/b.html", cat := "notes" } ]
        [{ source := "x", target := "y" }] :=
  ⟨by decide,
   (buildLinks_idempotent_and_manual_subset _ _).1,
   (buildLinks_idempotent_and_manual_subset _ _).2 _ (by decide)⟩

/-- C4 (amended): sibling inference runs only over the `"notes"` category.
For every pair of distinct notes nodes sharing a parent directory other
than the `/notes` category root (and longer than 6 characters), the
inferred edge set contains both directed edges between them; and rule 2
only ever adds edges for such pairs, never for pairs whose shared parent
directory is the `/notes` category root. -/
theorem notes_sibling_links_bidirectional :
    (∀ (nodes : List GNode) (n1 n2 : GNode),
        n1 ∈ notesOf nodes → n2 ∈ notesOf nodes → sibCond n1 n2 = true →
        containsPair (autoLinks nodes)
            { source := n1.id, target := n2.id } = true ∧
        containsPair (autoLinks nodes)
            { source := n2.id, target := n1.id } = true) ∧
    (∀ (notesN : List GNode) (acc : List Edge), ∀ e ∈ addRule2 notesN acc,
        e ∈ acc ∨ ∃ n1, n1 ∈ notesN ∧ ∃ n2, n2 ∈ notesN ∧
          sibCond n1 n2 = true ∧ noteDir n1.path ≠ "/notes" ∧
          e = { source := n1.id, target := n2.id }) := by
  constructor
  · intro nodes n1 n2 h1 h2 hc
    constructor
    · exact addRule4_mono nodes (addRule3_mono _
        (addRule2_contains _ _ h1 h2 hc))
    · exact addRule4_mono nodes (addRule3_mono _
        (addRule2_contains _ _ h2 h1 (sibCond_symm hc)))
  · intro notesN acc e he
    rcases addRule2_sound notesN acc e he with h | ⟨n1, hn1, n2, hn2, hc, heq⟩
    · exact Or.inl h
    · exact Or.inr ⟨n1, hn1, n2, hn2, hc, sibCond_not_root hc, heq⟩

/-- Witness for C4's amended theorem: two notes nodes in
`/notes/climate/` get both directed sibling edges. -/
theorem notes_sibling_links_bidirectional_witness :
    ({ id := "na", label := "A", path := "/notes/climate/a.html", cat := "notes" } : GNode) ∈
        notesOf
          [ { id := "na", label := "A", path := "/notes/climate/a.html", cat := "notes" },
            { id := "nb", label := "B", path := "/notes/climate/b.html", cat := "notes" } ] ∧
    ({ id := "nb", label := "B", path := "/notes/climate/b.html", cat := "notes" } : GNode) ∈
        notesOf
          [ { id := "na", label := "A", path := "/notes/climate/a.html", cat := "notes" },
            { id := "nb", label := "B", path := "/notes/climate/b.html", cat := "notes" } ] ∧
    sibCond
        { id := "na", label := "A", path := "/notes/climate/a.html", cat := "notes" }
        { id := "nb", label := "B", path := "/notes/climate/b.html", cat := "notes" } = true ∧
    (containsPair
        (autoLinks
          [ { id := "na", label := "A", path := "/notes/climate/a.html", cat := "notes" },
            { id := "nb", label := "B", path := "/notes/climate/b.html", cat := "notes" } ])
        { source := "na", target := "nb" } = true ∧
     containsPair
        (autoLinks
          [ { id := "na", label := "A", path := "/notes/climate/a.html", cat := "notes" },
            { id := "nb", label := "B", path := "/notes/climate/b.html", cat := "notes" } ])
        { source := "nb", target := "na" } = true) :=
  ⟨by decide, by decide, by decide,
   notes_sibling_links_bidirectional.1
     [ { id := "na", label := "A", path := "/notes/climate/a.html", cat := "notes" },
       { id := "nb", label := "B", path := "/notes/climate/b.html", cat := "notes" } ]
     { id := "na", label := "A", path := "/notes/climate/a.html", cat := "notes" }
     { id := "nb", label := "B", path := "/notes/climate/b.html", cat := "notes" }
     (by decide) (by decide) (by decide)⟩

/-- Counterexample for C4 as stated: two distinct `"work"` nodes share the
parent directory `/work/proj`, which is strictly deeper than the `/work`
category root, yet the inferred edge set contains no edge between them —
sibling inference is applied to the `"notes"` category only. -/
theorem work_sibling_links_missing :
    noteDir "/work/proj/a.html" = noteDir "/work/proj/b.html" ∧
    noteDir "/work/proj/a.html" = "/work/proj" ∧
    noteDir "/work/proj/a.html" ≠ "/work" ∧
    containsPair
        (autoLinks
          [ { id := "wa", label := "WA", path := "/work/proj/a.html", cat := "work" },
            { id := "wb", label := "WB", path := "/work/proj/b.html", cat := "work" } ])
        { source := "wa", target := "wb" } = false ∧
    containsPair
        (autoLinks
          [ { id := "wa", label := "WA", path := "/work/proj/a.html", cat := "work" },
            { id := "wb", label := "WB", path := "/work/proj/b.html", cat := "work" } ])
        { source := "wb", target := "wa" } = false := by
  decide

/-- C6: when both the primary and the fallback fetch fail, the catch
handler yields exactly the fixed minimal core-navigation node set of 6
entries (home, about, notes, work, reading, contact); the handler is a
total function of the failure, so the failure never escapes the loader. -/
theorem fallback_node_set_exact :
    loadNodes none =
      [ { id := "home", label := "Home", path := "/", cat := "nav" },
        { id := "about", label := "About", path := "/about.html", cat := "nav" },
        { id := "notes", label := "Notes", path := "/notes/", cat := "nav" },
        { id := "work", label := "Work", path := "/work/", cat := "nav" },
        { id := "reading", label := "Reading", path := "/reading/", cat := "nav" },
        { id := "contact", label := "Contact", path := "/contact_cv.html", cat := "nav" } ] ∧
    (loadNodes none).length = 6 ∧
    (loadNodes none).map (fun n => n.id) =
      ["home", "about", "notes", "work", "reading", "contact"] := by
  decide

theorem addRecentPage_shape (p : String) (t : Nat) (st : List RecentEntry) :
    addRecentPage p t st =
      { path := p, timestamp := t } ::
        (st.filter (fun e => e.path != p)).take 9 := by
  rfl

theorem addRecentPage_length (p : String) (t : Nat) (st : List RecentEntry) :
    (addRecentPage p t st).length ≤ 10 := by
  unfold addRecentPage
  rw [List.length_take]
  exact min_le_left _ _

theorem addRecentPage_pairwise (p : String) (t : Nat)
    {st : List RecentEntry}
    (h : List.Pairwise (fun a b => a.path ≠ b.path) st) :
    List.Pairwise (fun a b => a.path ≠ b.path) (addRecentPage p t st) := by
  unfold addRecentPage
  refine List.Pairwise.sublist (List.take_sublist _ _) ?_
  refine List.pairwise_cons.mpr ⟨?_, List.Pairwise.filter _ h⟩
  intro b hb
  have hb2 := (List.mem_filter.mp hb).2
  simp only [bne_iff_ne, ne_eq] at hb2
  intro hpb
  exact hb2 hpb.symm

theorem addRecentPage_head (p : String) (t : Nat) (st : List RecentEntry) :
    (addRecentPage p t st).head? = some { path := p, timestamp := t } := by
  rw [addRecentPage_shape]
  rfl

theorem addRecentPage_count (p : String) (t : Nat) (st : List RecentEntry) :
    ((addRecentPage p t st).filter (fun e => e.path == p)).length = 1 := by
  rw [addRecentPage_shape]
  rw [List.filter_cons_of_pos]
  · have hnil :
        ((st.filter (fun e => e.path != p)).take 9).filter
          (fun e => e.path == p) = [] := by
      refine List.filter_eq_nil_iff.mpr ?_
      intro e he
      have hmem := (List.take_sublist 9 _).subset he
      have he2 := (List.mem_filter.mp hmem).2
      simp only [bne_iff_ne, ne_eq] at he2
      simp [he2]
    rw [hnil]
    rfl
  · simp

/-- C7: starting from the empty log, any sequence of `addRecentPage` calls
leaves at most 10 entries with pairwise distinct paths; each call puts its
path at the front, and after a call exactly one entry for that path is
stored (so inserting the same path twice in a row leaves exactly one). -/
theorem recent_pages_invariants :
    ∀ (calls : List (String × Nat)),
      (calls.foldl (fun st c => addRecentPage c.1 c.2 st) []).length ≤ 10 ∧
      List.Pairwise (fun a b => a.path ≠ b.path)
        (calls.foldl (fun st c => addRecentPage c.1 c.2 st) []) ∧
      (∀ (p : String) (t : Nat) (st : List RecentEntry),
        (addRecentPage p t st).head? = some { path := p, timestamp := t }) ∧
      (∀ (p : String) (t : Nat) (st : List RecentEntry),
        ((addRecentPage p t st).filter (fun e => e.path == p)).length = 1) := by
  intro calls
  have hmain := foldl_preserve
    (fun st (c : String × Nat) => addRecentPage c.1 c.2 st)
    (fun st => st.length ≤ 10 ∧
      List.Pairwise (fun a b => a.path ≠ b.path) st)
    (fun st c hst =>
      ⟨addRecentPage_length c.1 c.2 st, addRecentPage_pairwise c.1 c.2 hst.2⟩)
    calls [] ⟨by simp, List.Pairwise.nil⟩
  exact ⟨hmain.1, hmain.2, addRecentPage_head, addRecentPage_count⟩

/-- Counterexample for C8 as stated: with a visible list of 3 nodes and a
stale focus index of 5 — reachable because a category-filter click shrinks
the visible list without resetting `focusedNodeIndex` — ArrowUp yields
index 4, outside `[0, 2]`. -/
theorem arrow_key_not_always_clamped :
    handleArrowKey false 5 3 = 4 ∧ ¬(handleArrowKey false 5 3 ≤ (3 : Int) - 1) := by
  decide

/-- C8 (amended): provided the focus index has not gone stale — it lies in
`[-1, len]`, as holds whenever the visible list has not shrunk since the
index was last reset — the index after any arrow key press lies in
`[0, len - 1]` and never wraps: up/left at 0 stays 0, down/right at the
last index stays at the last index. -/
theorem arrow_key_clamped (f : Bool) (idx : Int) (len : Nat)
    (hlen : 1 ≤ len) (hlo : -1 ≤ idx) (hhi : idx ≤ (len : Int)) :
    (0 ≤ handleArrowKey f idx len ∧
      handleArrowKey f idx len ≤ (len : Int) - 1) ∧
    handleArrowKey false 0 len = 0 ∧
    (idx = (len : Int) - 1 → handleArrowKey true idx len = (len : Int) - 1) := by
  have hlen' : (1 : Int) ≤ (len : Int) := by exact_mod_cast hlen
  unfold handleArrowKey
  cases f <;>
    simp only [if_true, if_false, Bool.false_eq_true, Bool.true_eq_false,
      ite_true, ite_false, reduceIte] <;>
    constructor <;>
    (constructor <;> simp only [min_def, max_def] <;> split <;> omega)

/-- Witness for C8's amended theorem at `f = true`, `idx = 0`, `len = 3`. -/
theorem arrow_key_clamped_witness :
    (1 ≤ 3 ∧ -1 ≤ (0 : Int) ∧ (0 : Int) ≤ ((3 : Nat) : Int)) ∧
    ((0 ≤ handleArrowKey true 0 3 ∧
        handleArrowKey true 0 3 ≤ ((3 : Nat) : Int) - 1) ∧
      handleArrowKey false 0 3 = 0 ∧
      ((0 : Int) = ((3 : Nat) : Int) - 1 →
        handleArrowKey true 0 3 = ((3 : Nat) : Int) - 1)) :=
  ⟨⟨by decide, by decide, by decide⟩,
   arrow_key_clamped true 0 3 (by decide) (by decide) (by decide)⟩

/-- Counterexample for C10 as stated: with an unparsable stored value and
a working storage, `addRecentPage` does not leave the stored state
unchanged — it overwrites the blob with the fresh one-entry list. -/
theorem recent_storage_overwrites_corrupt :
    addRecentPageStore "/a" 0 (some (some .corrupt)) ≠
      some (some .corrupt) := by
  decide

/-- C10 (amended): `getRecentPages` and `addRecentPageStore` are total; if
storage is unavailable, `getRecentPages` returns `[]` and the add is a
silent no-op; if the stored value is not valid JSON, `getRecentPages`
returns `[]` and the add replaces the stored value with the freshly
computed one-entry list (rather than leaving it unchanged). -/
theorem recent_storage_degradation :
    ∀ (p : String) (t : Nat),
      getRecentPages none = [] ∧
      addRecentPageStore p t none = none ∧
      getRecentPages (some (some .corrupt)) = [] ∧
      addRecentPageStore p t (some (some .corrupt)) =
        some (some (.valid [{ path := p, timestamp := t }])) ∧
      (∀ v, addRecentPageStore p t (some v) =
        some (some (.valid (addRecentPage p t (getRecentPages (some v)))))) := by
  intro p t
  exact ⟨rfl, rfl, rfl, rfl, fun v => rfl⟩

theorem clampCoord_bounds {lo hi : ℚ} (h : lo ≤ hi) (v : ℚ) :
    lo ≤ clampCoord lo hi v ∧ clampCoord lo hi v ≤ hi :=
  ⟨le_max_left lo _, max_le h (min_le_left hi v)⟩

theorem setCurrentPos_cons (cid : String) (cx cy : ℚ) (a : LNode)
    (rest : List LNode) :
    setCurrentPos cid cx cy (a :: rest) =
      if a.id == cid then { a with x := cx, y := cy } :: rest
      else a :: setCurrentPos cid cx cy rest := rfl

theorem layoutPost_center (cid : String) (margin w h : ℚ) :
    ∀ (ns : List LNode), (∃ n ∈ ns, n.id = cid) →
      ∃ n, (layoutPost cid margin w h ns).find? (fun m => m.id == cid) = some n ∧
        n.x = w / 2 ∧ n.y = h / 2 := by
  intro ns
  induction ns with
  | nil =>
    rintro ⟨n, hn, _⟩
    cases hn
  | cons a rest ih =>
    rintro ⟨n, hn, hid⟩
    by_cases ha : a.id = cid
    · refine ⟨{ a with x := w / 2, y := h / 2 }, ?_, rfl, rfl⟩
      unfold layoutPost
      rw [setCurrentPos_cons, if_pos (beq_iff_eq.mpr ha)]
      unfold clampOthers
      rw [List.map_cons]
      simp [ha, List.find?]
    · have hrest : ∃ n ∈ rest, n.id = cid := by
        rcases List.mem_cons.mp hn with heq | hmem
        · exact absurd (heq ▸ hid) ha
        · exact ⟨n, hmem, hid⟩
      rcases ih hrest with ⟨m, hm, hmx, hmy⟩
      refine ⟨m, ?_, hmx, hmy⟩
      unfold layoutPost
      rw [setCurrentPos_cons, if_neg (by rw [beq_iff_eq]; exact ha)]
      unfold clampOthers
      rw [List.map_cons]
      unfold layoutPost clampOthers at hm
      simp only [List.find?, ha, if_false]
      have hhead :
          (if a.id == cid then a
           else { a with
                  x := clampCoord margin (w - margin) a.x
                  y := clampCoord margin (h - margin) a.y }).id = a.id := by
        split <;> rfl
      rw [show ((if a.id == cid then a
           else { a with
                  x := clampCoord margin (w - margin) a.x
                  y := clampCoord margin (h - margin) a.y }).id == cid) = false
        from by rw [hhead]; exact beq_eq_false_iff_ne.mpr ha]
      exact hm

theorem layoutPost_clamped (cid : String) (margin w h : ℚ)
    (hw : 2 * margin ≤ w) (hh : 2 * margin ≤ h) (ns : List LNode) :
    ∀ n ∈ layoutPost cid margin w h ns, n.id ≠ cid →
      margin ≤ n.x ∧ n.x ≤ w - margin ∧ margin ≤ n.y ∧ n.y ≤ h - margin := by
  intro n hn hne
  unfold layoutPost clampOthers at hn
  rcases List.mem_map.mp hn with ⟨n0, _, heq⟩
  by_cases h0 : n0.id = cid
  · rw [if_pos (beq_iff_eq.mpr h0)] at heq
    exact absurd (heq ▸ h0) hne
  · rw [if_neg (by rw [beq_iff_eq]; exact h0)] at heq
    have hxw : margin ≤ w - margin := by linarith
    have hyh : margin ≤ h - margin := by linarith
    have hx := clampCoord_bounds hxw n0.x
    have hy := clampCoord_bounds hyh n0.y
    rw [← heq]
    exact ⟨hx.1, hx.2, hy.1, hy.2⟩

/-- C3: whatever positions the fixed-iteration d3 simulation (150 ticks in
the mini view, 200 in the full view) leaves behind, the post pass gives
the current-page node exactly the viewport centre `(w/2, h/2)`, and every
other node is clamped into the viewport bounds minus the view's margin
(15 mini, 50 full). -/
theorem layout_pins_center_and_clamps (cid : String) (w h : ℚ)
    (ns : List LNode) (hmem : ∃ n ∈ ns, n.id = cid)
    (hw : 100 ≤ w) (hh : 100 ≤ h) :
    (∃ n, (renderMiniGraphPost cid w h ns).find? (fun m => m.id == cid) =
        some n ∧ n.x = w / 2 ∧ n.y = h / 2) ∧
    (∀ n ∈ renderMiniGraphPost cid w h ns, n.id ≠ cid →
        15 ≤ n.x ∧ n.x ≤ w - 15 ∧ 15 ≤ n.y ∧ n.y ≤ h - 15) ∧
    (∃ n, (initGraphPost cid w h ns).find? (fun m => m.id == cid) =
        some n ∧ n.x = w / 2 ∧ n.y = h / 2) ∧
    (∀ n ∈ initGraphPost cid w h ns, n.id ≠ cid →
        50 ≤ n.x ∧ n.x ≤ w - 50 ∧ 50 ≤ n.y ∧ n.y ≤ h - 50) :=
  ⟨layoutPost_center cid 15 w h ns hmem,
   layoutPost_clamped cid 15 w h (by linarith) (by linarith) ns,
   layoutPost_center cid 50 w h ns hmem,
   layoutPost_clamped cid 50 w h (by linarith) (by linarith) ns⟩

/-- Witness for C3 at a concrete node list, current id and viewport. -/
theorem layout_pins_center_and_clamps_witness :
    (∃ n ∈ [LNode.mk "a" 0 0, LNode.mk "b" 999 (-5)], n.id = "a") ∧
    ((100 : ℚ) ≤ 200) ∧
    ((∃ n, (renderMiniGraphPost "a" 200 200
          [LNode.mk "a" 0 0, LNode.mk "b" 999 (-5)]).find?
            (fun m => m.id == "a") = some n ∧
        n.x = 200 / 2 ∧ n.y = 200 / 2) ∧
      (∀ n ∈ renderMiniGraphPost "a" 200 200
          [LNode.mk "a" 0 0, LNode.mk "b" 999 (-5)], n.id ≠ "a" →
        15 ≤ n.x ∧ n.x ≤ 200 - 15 ∧ 15 ≤ n.y ∧ n.y ≤ 200 - 15) ∧
      (∃ n, (initGraphPost "a" 200 200
          [LNode.mk "a" 0 0, LNode.mk "b" 999 (-5)]).find?
            (fun m => m.id == "a") = some n ∧
        n.x = 200 / 2 ∧ n.y = 200 / 2) ∧
      (∀ n ∈ initGraphPost "a" 200 200
          [LNode.mk "a" 0 0, LNode.mk "b" 999 (-5)], n.id ≠ "a" →
        50 ≤ n.x ∧ n.x ≤ 200 - 50 ∧ 50 ≤ n.y ∧ n.y ≤ 200 - 50)) :=
  ⟨by decide, by norm_num,
   layout_pins_center_and_clamps "a" 200 200
     [LNode.mk "a" 0 0, LNode.mk "b" 999 (-5)]
     (by decide) (by norm_num) (by norm_num)⟩

/-! ## Node-map lemmas (shared by the Index Loader and the backlinks
deduplication) -/

theorem mem_mapSet {m : List (String × GNode)} {k : String} {v : GNode}
    {kv : String × GNode} (h : kv ∈ mapSet m k v) :
    kv ∈ m ∨ kv = (k, v) := by
  unfold mapSet at h
  split at h
  · rcases List.mem_map.mp h with ⟨kv0, hkv0, heq⟩
    by_cases hk : kv0.1 == k
    · rw [if_pos hk] at heq
      exact Or.inr heq.symm
    · rw [if_neg hk] at heq
      exact Or.inl (heq ▸ hkv0)
  · rcases List.mem_append.mp h with h' | h'
    · exact Or.inl h'
    · exact Or.inr (List.mem_singleton.mp h')

theorem mapSet_forall {m : List (String × GNode)} {k : String} {v : GNode}
    {P : String × GNode → Prop} (hm : ∀ kv ∈ m, P kv) (hv : P (k, v)) :
    ∀ kv ∈ mapSet m k v, P kv := by
  intro kv hkv
  rcases mem_mapSet hkv with h | h
  · exact hm kv h
  · exact h ▸ hv

theorem mapSet_keys_pairwise {m : List (String × GNode)} {k : String}
    {v : GNode} (h : List.Pairwise (fun a b => a.1 ≠ b.1) m) :
    List.Pairwise (fun a b => a.1 ≠ b.1) (mapSet m k v) := by
  unfold mapSet
  split
  · rw [List.pairwise_map]
    refine h.imp_of_mem ?_
    intro a b _ _ hab
    have ha : (if a.1 == k then (k, v) else a).1 = a.1 := by
      split
      · next hk => exact ((beq_iff_eq).mp hk).symm
      · rfl
    have hb : (if b.1 == k then (k, v) else b).1 = b.1 := by
      split
      · next hk => exact ((beq_iff_eq).mp hk).symm
      · rfl
    rw [ha, hb]
    exact hab
  · next hhas =>
    rw [List.pairwise_append]
    refine ⟨h, List.pairwise_singleton _ _, ?_⟩
    intro a ha b hb
    rw [List.mem_singleton.mp hb]
    intro heq
    apply hhas
    unfold mapHas
    exact List.any_eq_true.mpr ⟨a, ha, beq_iff_eq.mpr heq⟩

theorem mapSet_key_present (m : List (String × GNode)) (k : String)
    (v : GNode) : ∃ kv ∈ mapSet m k v, kv.1 = k := by
  unfold mapSet
  split
  · next hhas =>
    unfold mapHas at hhas
    rcases List.any_eq_true.mp hhas with ⟨kv0, hkv0, hk⟩
    refine ⟨(k, v), List.mem_map.mpr ⟨kv0, hkv0, ?_⟩, rfl⟩
    rw [if_pos hk]
  · exact ⟨(k, v), List.mem_append_right _ (List.mem_singleton_self _), rfl⟩

theorem mapSet_key_preserved {m : List (String × GNode)} {K : String}
    (k : String) (v : GNode) (h : ∃ kv ∈ m, kv.1 = K) :
    ∃ kv ∈ mapSet m k v, kv.1 = K := by
  rcases h with ⟨kv0, hkv0, hK⟩
  unfold mapSet
  split
  · by_cases hk : kv0.1 == k
    · refine ⟨(k, v), List.mem_map.mpr ⟨kv0, hkv0, by rw [if_pos hk]⟩, ?_⟩
      have := (beq_iff_eq).mp hk
      rw [← hK, ← this]
    · exact ⟨kv0, List.mem_map.mpr ⟨kv0, hkv0, by rw [if_neg hk]⟩, hK⟩
  · exact ⟨kv0, List.mem_append_left _ hkv0, hK⟩

theorem values_pairwise_of_keys {m : List (String × GNode)}
    (hkeys : List.Pairwise (fun a b => a.1 ≠ b.1) m)
    (hpm : ∀ kv ∈ m, kv.2.path = kv.1) :
    List.Pairwise (fun a b => a.path ≠ b.path)
      (m.map (fun kv => kv.2)) := by
  rw [List.pairwise_map]
  refine hkeys.imp_of_mem ?_
  intro a b ha hb hr
  rw [hpm a ha, hpm b hb]
  exact hr

theorem catOfPath_closed (p : String) :
    catOfPath p ∈ ["nav", "notes", "work", "reading"] := by
  unfold catOfPath
  split_ifs <;> simp

theorem nodeMapInv_mapSet {m : List (String × GNode)} {k : String}
    {v : GNode} (h : NodeMapInv m) (hv : v.path = k ∧
      v.cat ∈ ["nav", "notes", "work", "reading"]) :
    NodeMapInv (mapSet m k v) :=
  ⟨mapSet_keys_pairwise h.1,
   mapSet_forall (P := fun kv => kv.2.path = kv.1 ∧
     kv.2.cat ∈ ["nav", "notes", "work", "reading"]) h.2 hv⟩

/-- C5 (amended): in the node set built from any search-index input, node
paths are pairwise distinct and every node's category lies in the closed
set {nav, notes, work, reading}.  (Node ids, by contrast, are not
guaranteed pairwise distinct — distinct paths can sanitize to the same
id.) -/
theorem buildNodes_paths_distinct_cats_closed :
    ∀ (searchData : List SearchItem),
      List.Pairwise (fun a b => a.path ≠ b.path) (buildNodes searchData) ∧
      ∀ n ∈ buildNodes searchData, n.cat ∈ ["nav", "notes", "work", "reading"] := by
  intro sd
  have hm0 : NodeMapInv (coreNodes.foldl (fun m n => mapSet m n.path n) []) := by
    unfold NodeMapInv
    decide
  have hinv := foldl_preserve
    (fun m item =>
      if !(mapHas m ("/" ++ takeBeforeHash item.href)) &&
          !(strIncludes ("/" ++ takeBeforeHash item.href) "index.html") then
        mapSet m ("/" ++ takeBeforeHash item.href)
          (nodeOfItem item ("/" ++ takeBeforeHash item.href))
      else m)
    NodeMapInv
    (fun m item hm => by
      dsimp only
      split
      · exact nodeMapInv_mapSet hm ⟨rfl, catOfPath_closed _⟩
      · exact hm)
    sd _ hm0
  refine ⟨values_pairwise_of_keys hinv.1 (fun kv hkv => (hinv.2 kv hkv).1), ?_⟩
  intro n hn
  rcases List.mem_map.mp hn with ⟨kv, hkv, heq⟩
  exact heq ▸ (hinv.2 kv hkv).2

/-- Witness for C5's amended theorem at a concrete search index. -/
theorem buildNodes_paths_distinct_cats_closed_witness :
    (GNode.mk "home" "Home" "/" "nav" ∈
        buildNodes [{ href := "a.b.html", title := "X" }]) ∧
    List.Pairwise (fun a b => a.path ≠ b.path)
        (buildNodes [{ href := "a.b.html", title := "X" }]) ∧
    (GNode.mk "home" "Home" "/" "nav").cat ∈ ["nav", "notes", "work", "reading"] :=
  ⟨by decide,
   (buildNodes_paths_distinct_cats_closed [{ href := "a.b.html", title := "X" }]).1,
   (buildNodes_paths_distinct_cats_closed [{ href := "a.b.html", title := "X" }]).2
     (GNode.mk "home" "Home" "/" "nav") (by decide)⟩

/-- Counterexample for C5 as stated: two search-index entries with
distinct hrefs (hence distinct paths) sanitize to the same node id
`"a-b-"`, so node ids are not pairwise distinct. -/
theorem buildNodes_ids_can_collide :
    sanitizeId "/a.b.html" = "a-b-" ∧
    sanitizeId "/a-b.html" = "a-b-" ∧
    ¬ List.Pairwise (fun a b => a.id ≠ b.id)
      (buildNodes [ { href := "a.b.html", title := "X" },
                    { href := "a-b.html", title := "Y" } ]) := by
  refine ⟨by decide, by decide, by decide⟩

/-! ## Backlinks / related-content lemmas -/

theorem backlinksRaw_sound (nodes : List GNode) (links : List Edge)
    (cid cpath : String) :
    ∀ b ∈ backlinksRaw nodes links cid cpath,
      ∃ l, l ∈ links ∧ l.target = cid ∧
        findNodeById nodes l.source = some b ∧ b.path ≠ cpath := by
  intro b hb
  unfold backlinksRaw at hb
  have h := foldl_mem_step _
    (fun (l : Edge) (b : GNode) => l.target = cid ∧
      findNodeById nodes l.source = some b ∧ b.path ≠ cpath)
    ?_ links [] b hb
  · rcases h with h | ⟨l, hl, hq⟩
    · cases h
    · exact ⟨l, hl, hq⟩
  · intro acc l e he
    by_cases ht : (l.target == cid) = true
    · rw [if_pos ht] at he
      cases hfind : findNodeById nodes l.source with
      | none =>
        rw [hfind] at he
        exact Or.inl he
      | some sn =>
        rw [hfind] at he
        dsimp only at he
        by_cases hp : (sn.path != cpath) = true
        · rw [if_pos hp] at he
          rcases List.mem_append.mp he with h' | h'
          · exact Or.inl h'
          · have heb := List.mem_singleton.mp h'
            subst heb
            exact Or.inr ⟨beq_iff_eq.mp ht, hfind, bne_iff_ne.mp hp⟩
        · rw [if_neg hp] at he
          exact Or.inl he
    · rw [if_neg ht] at he
      exact Or.inl he

theorem backlinksRaw_complete (nodes : List GNode) (links : List Edge)
    (cid cpath : String) {l : Edge} {b : GNode}
    (hl : l ∈ links) (ht : l.target = cid)
    (hf : findNodeById nodes l.source = some b) (hp : b.path ≠ cpath) :
    b ∈ backlinksRaw nodes links cid cpath := by
  unfold backlinksRaw
  refine foldl_ensure _ (fun acc => b ∈ acc) l ?_ ?_ links [] hl
  · intro acc
    dsimp only
    rw [if_pos (beq_iff_eq.mpr ht), hf]
    dsimp only
    rw [if_pos (bne_iff_ne.mpr hp)]
    exact List.mem_append_right _ (List.mem_singleton_self _)
  · intro acc a hacc
    dsimp only
    split
    · cases hfind : findNodeById nodes a.source with
      | none => simp only [hfind]; exact hacc
      | some sn =>
        simp only [hfind]
        split
        · exact List.mem_append_left _ hacc
        · exact hacc
    · exact hacc

theorem relatedRaw_sound (nodes : List GNode) (links : List Edge)
    (cid cpath : String) :
    ∀ b ∈ relatedRaw nodes links cid cpath,
      ∃ l, l ∈ links ∧ l.source = cid ∧
        findNodeById nodes l.target = some b ∧ b.path ≠ cpath := by
  intro b hb
  unfold relatedRaw at hb
  have h := foldl_mem_step _
    (fun (l : Edge) (b : GNode) => l.source = cid ∧
      findNodeById nodes l.target = some b ∧ b.path ≠ cpath)
    ?_ links [] b hb
  · rcases h with h | ⟨l, hl, hq⟩
    · cases h
    · exact ⟨l, hl, hq⟩
  · intro acc l e he
    by_cases ht : (l.source == cid) = true
    · rw [if_pos ht] at he
      cases hfind : findNodeById nodes l.target with
      | none =>
        rw [hfind] at he
        exact Or.inl he
      | some tn =>
        rw [hfind] at he
        dsimp only at he
        by_cases hp : (tn.path != cpath) = true
        · rw [if_pos hp] at he
          rcases List.mem_append.mp he with h' | h'
          · exact Or.inl h'
          · have heb := List.mem_singleton.mp h'
            subst heb
            exact Or.inr ⟨beq_iff_eq.mp ht, hfind, bne_iff_ne.mp hp⟩
        · rw [if_neg hp] at he
          exact Or.inl he
    · rw [if_neg ht] at he
      exact Or.inl he

theorem relatedRaw_complete (nodes : List GNode) (links : List Edge)
    (cid cpath : String) {l : Edge} {b : GNode}
    (hl : l ∈ links) (ht : l.source = cid)
    (hf : findNodeById nodes l.target = some b) (hp : b.path ≠ cpath) :
    b ∈ relatedRaw nodes links cid cpath := by
  unfold relatedRaw
  refine foldl_ensure _ (fun acc => b ∈ acc) l ?_ ?_ links [] hl
  · intro acc
    dsimp only
    rw [if_pos (beq_iff_eq.mpr ht), hf]
    dsimp only
    rw [if_pos (bne_iff_ne.mpr hp)]
    exact List.mem_append_right _ (List.mem_singleton_self _)
  · intro acc a hacc
    dsimp only
    split
    · cases hfind : findNodeById nodes a.target with
      | none => simp only [hfind]; exact hacc
      | some tn =>
        simp only [hfind]
        split
        · exact List.mem_append_left _ hacc
        · exact hacc
    · exact hacc

theorem mem_dedupByPath {l : List GNode} {b : GNode}
    (h : b ∈ dedupByPath l) : b ∈ l := by
  unfold dedupByPath at h
  rcases List.mem_map.mp h with ⟨kv, hkv, heq⟩
  have h2 := foldl_mem_step (fun m (g : GNode) => mapSet m g.path g)
    (fun (g : GNode) kv => kv = (g.path, g))
    (fun acc a e he => mem_mapSet he) l [] kv hkv
  rcases h2 with h' | ⟨g, hg, heq2⟩
  · cases h'
  · rw [heq2] at heq
    rw [← heq]
    exact hg

theorem dedupByPath_path_present {l : List GNode} {b : GNode} (h : b ∈ l) :
    ∃ b' ∈ dedupByPath l, b'.path = b.path := by
  unfold dedupByPath
  have hkey := foldl_ensure (fun m (g : GNode) => mapSet m g.path g)
    (fun m => ∃ kv ∈ m, kv.1 = b.path) b
    (fun m => mapSet_key_present m b.path b)
    (fun m g hm => mapSet_key_preserved g.path g hm) l [] h
  have hpm := foldl_preserve (fun m (g : GNode) => mapSet m g.path g)
    (fun m => ∀ kv ∈ m, kv.2.path = kv.1)
    (fun m g hm => mapSet_forall (P := fun kv => kv.2.path = kv.1) hm rfl)
    l [] (fun kv hkv => by cases hkv)
  rcases hkey with ⟨kv, hkv, hk⟩
  exact ⟨kv.2, List.mem_map.mpr ⟨kv, hkv, rfl⟩, by rw [hpm kv hkv, hk]⟩

theorem dedupByPath_pairwise (l : List GNode) :
    List.Pairwise (fun a b => a.path ≠ b.path) (dedupByPath l) := by
  unfold dedupByPath
  have hkeys := foldl_preserve (fun m (g : GNode) => mapSet m g.path g)
    (fun m => List.Pairwise (fun a b => a.1 ≠ b.1) m)
    (fun m g hm => mapSet_keys_pairwise hm) l [] List.Pairwise.nil
  have hpm := foldl_preserve (fun m (g : GNode) => mapSet m g.path g)
    (fun m => ∀ kv ∈ m, kv.2.path = kv.1)
    (fun m g hm => mapSet_forall (P := fun kv => kv.2.path = kv.1) hm rfl)
    l [] (fun kv hkv => by cases hkv)
  exact values_pairwise_of_keys hkeys hpm

/-- C9: the injected backlinks list consists exactly of the sources of
edges targeting the current node's id (current page excluded,
deduplicated by source page path), and the related-content list consists
exactly of the targets of edges leaving the current node's id, with the
same exclusion and dedup; on the two-node example with the single edge
a→b, page /b gets backlinks [A] and no related content, and page /a gets
related content [B] and no backlinks. -/
theorem backlinks_related_exact :
    (∀ (nodes : List GNode) (links : List Edge) (cid cpath : String),
      (∀ b ∈ backlinksOf nodes links cid cpath,
        ∃ l, l ∈ links ∧ l.target = cid ∧
          findNodeById nodes l.source = some b ∧ b.path ≠ cpath) ∧
      (∀ l ∈ links, l.target = cid →
        ∀ b, findNodeById nodes l.source = some b → b.path ≠ cpath →
          ∃ b' ∈ backlinksOf nodes links cid cpath, b'.path = b.path) ∧
      List.Pairwise (fun a b => a.path ≠ b.path)
        (backlinksOf nodes links cid cpath) ∧
      (∀ b ∈ relatedOf nodes links cid cpath,
        ∃ l, l ∈ links ∧ l.source = cid ∧
          findNodeById nodes l.target = some b ∧ b.path ≠ cpath) ∧
      (∀ l ∈ links, l.source = cid →
        ∀ b, findNodeById nodes l.target = some b → b.path ≠ cpath →
          ∃ b' ∈ relatedOf nodes links cid cpath, b'.path = b.path) ∧
      List.Pairwise (fun a b => a.path ≠ b.path)
        (relatedOf nodes links cid cpath)) ∧
    (getCurrentPageId "/b"
        [GNode.mk "a" "A" "/a" "nav", GNode.mk "b" "B" "/b" "nav"] = some "b" ∧
     backlinksOf [GNode.mk "a" "A" "/a" "nav", GNode.mk "b" "B" "/b" "nav"]
        [Edge.mk "a" "b"] "b" "/b" = [GNode.mk "a" "A" "/a" "nav"] ∧
     relatedOf [GNode.mk "a" "A" "/a" "nav", GNode.mk "b" "B" "/b" "nav"]
        [Edge.mk "a" "b"] "b" "/b" = [] ∧
     getCurrentPageId "/a"
        [GNode.mk "a" "A" "/a" "nav", GNode.mk "b" "B" "/b" "nav"] = some "a" ∧
     relatedOf [GNode.mk "a" "A" "/a" "nav", GNode.mk "b" "B" "/b" "nav"]
        [Edge.mk "a" "b"] "a" "/a" = [GNode.mk "b" "B" "/b" "nav"] ∧
     backlinksOf [GNode.mk "a" "A" "/a" "nav", GNode.mk "b" "B" "/b" "nav"]
        [Edge.mk "a" "b"] "a" "/a" = []) := by
  constructor
  · intro nodes links cid cpath
    refine ⟨?_, ?_, dedupByPath_pairwise _, ?_, ?_, dedupByPath_pairwise _⟩
    · intro b hb
      exact backlinksRaw_sound nodes links cid cpath b (mem_dedupByPath hb)
    · intro l hl ht b hf hp
      exact dedupByPath_path_present
        (backlinksRaw_complete nodes links cid cpath hl ht hf hp)
    · intro b hb
      exact relatedRaw_sound nodes links cid cpath b (mem_dedupByPath hb)
    · intro l hl ht b hf hp
      exact dedupByPath_path_present
        (relatedRaw_complete nodes links cid cpath hl ht hf hp)
  · refine ⟨by decide, by decide, by decide, by decide, by decide, by decide⟩

/-- Witness for C9: the characterization applied on the example data,
with the membership and edge hypotheses discharged concretely. -/
theorem backlinks_related_exact_witness :
    (GNode.mk "a" "A" "/a" "nav" ∈
        backlinksOf [GNode.mk "a" "A" "/a" "nav", GNode.mk "b" "B" "/b" "nav"]
          [Edge.mk "a" "b"] "b" "/b") ∧
    (∃ l, l ∈ [Edge.mk "a" "b"] ∧ l.target = "b" ∧
      findNodeById [GNode.mk "a" "A" "/a" "nav", GNode.mk "b" "B" "/b" "nav"]
        l.source = some (GNode.mk "a" "A" "/a" "nav") ∧
      (GNode.mk "a" "A" "/a" "nav").path ≠ "/b") :=
  ⟨by decide,
   (backlinks_related_exact.1
      [GNode.mk "a" "A" "/a" "nav", GNode.mk "b" "B" "/b" "nav"]
      [Edge.mk "a" "b"] "b" "/b").1
     (GNode.mk "a" "A" "/a" "nav") (by decide)⟩

/-! ## Viewer filter lemmas -/

theorem mem_visibleNodes {s : List String} {q : String} {fm : Bool}
    {cid : Option String} {nodes : List GNode} {links : List Edge}
    {n : GNode} (h : n ∈ visibleNodes s q fm cid nodes links) :
    n ∈ nodes ∧ (hasS s "all" = true ∨ hasS s n.cat = true) := by
  simp only [visibleNodes] at h
  have h2 : n ∈ (if q != "" then
      (if hasS s "all" then nodes
       else nodes.filter (fun n => hasS s n.cat)).filter (matchesQuery q)
    else
      (if hasS s "all" then nodes
       else nodes.filter (fun n => hasS s n.cat))) := by
    cases cid with
    | none => exact h
    | some c =>
      dsimp only at h
      cases fm with
      | true =>
        rw [if_pos rfl] at h
        exact List.mem_of_mem_filter h
      | false =>
        rw [if_neg Bool.false_ne_true] at h
        exact h
  have h1 : n ∈ (if hasS s "all" then nodes
      else nodes.filter (fun n => hasS s n.cat)) := by
    by_cases hq : (q != "") = true
    · rw [if_pos hq] at h2
      exact List.mem_of_mem_filter h2
    · rw [if_neg hq] at h2
      exact h2
  by_cases hall : hasS s "all" = true
  · rw [if_pos hall] at h1
    exact ⟨h1, Or.inl hall⟩
  · rw [if_neg hall] at h1
    exact ⟨List.mem_of_mem_filter h1, Or.inr (List.mem_filter.mp h1).2⟩

/-- C1: for every filter selection reachable by toggling the filter
buttons from the initial all-active state, every node the full view
renders has its category in the set of admitted categories (all four when
the `'all'` shortcut is active, the selection itself otherwise), and every
rendered edge has both endpoints among the rendered nodes. -/
theorem filter_render_invariant (s : List String) (hS : FilterReachable s)
    (nodes : List GNode) (links : List Edge) (q : String) (fm : Bool)
    (cid : Option String)
    (hcats : ∀ n ∈ nodes, n.cat ∈ ["nav", "notes", "work", "reading"]) :
    (∀ n ∈ visibleNodes s q fm cid nodes links, n.cat ∈ activeCatSet s) ∧
    (∀ l ∈ visibleLinks s q fm cid nodes links,
      (∃ n ∈ visibleNodes s q fm cid nodes links, n.id = l.source) ∧
      (∃ n ∈ visibleNodes s q fm cid nodes links, n.id = l.target)) := by
  constructor
  · intro n hn
    have h := mem_visibleNodes hn
    unfold activeCatSet
    split
    · exact hcats n h.1
    · next hall =>
      rcases h.2 with h2 | hcat
      · exact absurd h2 hall
      · rcases List.any_eq_true.mp hcat with ⟨y, hy, hyeq⟩
        exact (beq_iff_eq.mp hyeq) ▸ hy
  · intro l hl
    simp only [visibleLinks] at hl
    obtain ⟨hmem, hcond⟩ := List.mem_filter.mp hl
    rw [Bool.and_eq_true] at hcond
    obtain ⟨hs, ht⟩ := hcond
    constructor
    · rcases List.any_eq_true.mp hs with ⟨m, hm, hmeq⟩
      exact ⟨m, hm, beq_iff_eq.mp hmeq⟩
    · rcases List.any_eq_true.mp ht with ⟨m, hm, hmeq⟩
      exact ⟨m, hm, beq_iff_eq.mp hmeq⟩

/-- Witness for C1 at the initial filter state and a concrete node list. -/
theorem filter_render_invariant_witness :
    FilterReachable initialCategories ∧
    (∀ n ∈ [GNode.mk "home" "Home" "/" "nav"],
      n.cat ∈ ["nav", "notes", "work", "reading"]) ∧
    ((∀ n ∈ visibleNodes initialCategories "" false none
          [GNode.mk "home" "Home" "/" "nav"] [],
        n.cat ∈ activeCatSet initialCategories) ∧
     (∀ l ∈ visibleLinks initialCategories "" false none
          [GNode.mk "home" "Home" "/" "nav"] [],
        (∃ n ∈ visibleNodes initialCategories "" false none
            [GNode.mk "home" "Home" "/" "nav"] [], n.id = l.source) ∧
        (∃ n ∈ visibleNodes initialCategories "" false none
            [GNode.mk "home" "Home" "/" "nav"] [], n.id = l.target))) :=
  ⟨FilterReachable.init, by decide,
   filter_render_invariant initialCategories FilterReachable.init
     [GNode.mk "home" "Home" "/" "nav"] [] "" false none (by decide)⟩

end GraphScript
